import Mathlib

/-!
Verification of the constrained intent-resolution engine of the
`zerofriction` live-count server (`src/server.js`, with the count store of
`src/unnamed/part_002`).

The JavaScript helpers are shallowly embedded as executable Lean
definitions:

* strings are Lean `String`s (all inputs of interest are ASCII, where
  JavaScript `toLowerCase`/`trim`/`includes` coincide with the ASCII
  character operations used below);
* JavaScript floating-point confidences and similarity scores are modelled
  as rationals (`ℚ`); every constant appearing in the source (`0.60`,
  `0.70`, `0.85`, `0.90`, `0.95`) and every Dice coefficient is exactly
  representable, and no comparison in the source is close enough to the
  binary-rounding error of a double for the distinction to matter.
  Rationals are written `mkRat a b` (the normalized fraction `a / b`,
  identical to `a / b : ℚ` for the nonzero denominators that occur)
  because `mkRat` stays kernel-computable where `Rat.div` is sealed;
* the dynamically-typed alias dictionary is modelled twice: a well-typed
  form `AliasTable` (canonical name to list of alias strings, in caller
  insertion order, matching `Object.entries`), and a dynamic form
  `List (String × JsVal)` that also represents non-array values and
  non-string list elements, used to settle the malformed-input claim.
-/

/-- `s.toLowerCase()` restricted to ASCII: lowercase every character. -/
def jsToLower (s : String) : String := ⟨s.data.map Char.toLower⟩

/-- Character class trimmed by `String.prototype.trim` (ASCII fragment). -/
def isJsSpace (c : Char) : Bool := c.isWhitespace

/-- `s.trim()`: drop leading and trailing whitespace. -/
def jsTrim (s : String) : String :=
  ⟨((s.data.dropWhile isJsSpace).reverse.dropWhile isJsSpace).reverse⟩

/-- List-level prefix test used to implement substring search. -/
def isPrefixL : List Char → List Char → Bool
  | [], _ => true
  | _ :: _, [] => false
  | a :: as, b :: bs => a == b && isPrefixL as bs

/-- Does `pat` occur as a contiguous run somewhere in the list? -/
def containsL (pat : List Char) : List Char → Bool
  | [] => isPrefixL pat []
  | c :: rest => isPrefixL pat (c :: rest) || containsL pat rest

/-- `hay.includes(needle)` (substring containment; `includes("")` is true). -/
def jsIncludes (hay needle : String) : Bool := containsL needle.data hay.data

/-- JavaScript regex `\w` (ASCII): letters, digits, underscore. -/
def isWordChar (c : Char) : Bool := c.isAlpha || c.isDigit || c = '_'

/-- Does the regex `\b<pat>\b` match somewhere in `hay`?  A match at
position `i` needs `pat` as a run starting at `i`, no word character just
before `i`, and no word character just after the run.  (All vocabulary
words of `server.js` begin and end with word characters, so this is
exactly the `\b`-anchored alternation semantics.) -/
def hasWholeWord (hay pat : List Char) : Bool :=
  (List.range (hay.length + 1)).any fun i =>
    isPrefixL pat (hay.drop i)
    && ((i == 0) || !(isWordChar (hay.getD (i - 1) ' ')))
    && !(isWordChar (hay.getD (i + pat.length) ' '))

/-- `server.js:1185` `parseOperation`: case-insensitive whole-word
vocabulary tests, first hit wins, defaulting to `"SET"`.  The regex
alternations `\b(erase|clear|delete|zero)\b` etc. are per-word whole-word
tests. -/
def parseOperation (transcript : String) : String :=
  let lower := jsToLower transcript
  if ["erase", "clear", "delete", "zero"].any (fun w => hasWholeWord lower.data w.data) then "ERASE"
  else if ["add", "plus", "and"].any (fun w => hasWholeWord lower.data w.data) then "ADD"
  else if ["subtract", "minus", "take away", "remove"].any (fun w => hasWholeWord lower.data w.data) then "SUBTRACT"
  else if ["at", "equals", "is", "set"].any (fun w => hasWholeWord lower.data w.data) then "SET"
  else "SET"

/-- The number-word table of `server.js:1200`. -/
def numberWords : List (String × Nat) :=
  [("zero", 0), ("one", 1), ("two", 2), ("three", 3), ("four", 4),
   ("five", 5), ("six", 6), ("seven", 7), ("eight", 8), ("nine", 9),
   ("ten", 10), ("eleven", 11), ("twelve", 12), ("thirteen", 13),
   ("fourteen", 14), ("fifteen", 15), ("sixteen", 16), ("seventeen", 17),
   ("eighteen", 18), ("nineteen", 19), ("twenty", 20), ("thirty", 30),
   ("forty", 40), ("fifty", 50), ("sixty", 60), ("seventy", 70),
   ("eighty", 80), ("ninety", 90), ("hundred", 100)]

/-- Numeric value of a run of decimal digit characters. -/
def digitsToNat (l : List Char) : Nat :=
  l.foldl (fun n c => 10 * n + (c.toNat - '0'.toNat)) 0

/-- First match of the regex `\b\d+\b`: a maximal digit run whose
neighbours (when present) are not word characters.  `prev` is the
character just before the current scan position.  Shorter prefixes of a
run can never satisfy the trailing `\b` (the next character is a digit),
so the regex match is exactly a maximal run with free ends. -/
def findDigitRun (prev : Option Char) : List Char → Option (List Char)
  | [] => none
  | c :: rest =>
    if c.isDigit && (match prev with | some p => !isWordChar p | none => true) then
      let run := (c :: rest).takeWhile Char.isDigit
      let after := (c :: rest).dropWhile Char.isDigit
      match after with
      | [] => some run
      | a :: _ => if !isWordChar a then some run else findDigitRun (some c) rest
    else findDigitRun (some c) rest

/-- Split into maximal non-whitespace runs (the token stream of
`split(/\s+/)`; the possible leading empty token of the JavaScript split
never matches a number word, so dropping it is observation-equivalent). -/
def splitWsAux : List Char → List Char → List (List Char)
  | [], acc => if acc.isEmpty then [] else [acc.reverse]
  | c :: rest, acc =>
    if isJsSpace c then
      if acc.isEmpty then splitWsAux rest [] else acc.reverse :: splitWsAux rest []
    else splitWsAux rest (c :: acc)

def splitWs (l : List Char) : List (List Char) := splitWsAux l []

/-- `server.js:1198` `extractNumber`: first whole-word digit run wins;
otherwise the first whitespace token found in the number-word table;
otherwise `none` (JavaScript `null`). -/
def extractNumber (transcript : String) : Option Nat :=
  match findDigitRun none transcript.data with
  | some run => some (digitsToNat run)
  | none =>
    (splitWs (jsToLower transcript).data).findSome? fun w =>
      (numberWords.find? fun p => p.1.data == w).map (·.2)

/-- Adjacent character pairs, as in the `substring(i, i+2)` loop of
`calculateSimilarity`. -/
def bigramList : List Char → List (Char × Char)
  | a :: b :: rest => (a, b) :: bigramList (b :: rest)
  | _ => []

/-- `server.js:352` `calculateSimilarity`: Dice coefficient over the two
bigram sets (JavaScript `Set`s; only the set sizes and membership matter,
so first- versus last-occurrence deduplication is irrelevant). -/
def calculateSimilarity (str1 str2 : String) : ℚ :=
  if str1 = str2 then 1
  else if str1.length < 2 ∨ str2.length < 2 then 0
  else
    let b1 := (bigramList str1.data).dedup
    let b2 := (bigramList str2.data).dedup
    let inter := b1.filter (· ∈ b2)
    mkRat (2 * inter.length) (b1.length + b2.length)

/-- The well-typed alias dictionary: canonical item name paired with its
list of learned alias strings, in caller insertion order (the order
`Object.entries` iterates). -/
abbrev AliasTable := List (String × List String)

/-- Result record of `resolveCurrentProtocol` (`server.js:1228`). -/
structure CurResult where
  canonicalItem : String
  confidence : ℚ
  matchType : String

/-- Per-variant result record inside `resolveNewProtocol`
(`server.js:1290`, the `results` array elements). -/
structure VarResult where
  canonicalItem : String
  confidence : ℚ
  source : String

/-- Result record of `resolveNewProtocol` (`server.js:1359`). -/
structure NewResult where
  canonicalItem : String
  confidence : ℚ
  matchType : String
  topChoices : List String

/-- The alias scan shared verbatim by `resolveCurrentProtocol`
(`server.js:1232`) and each variant of `resolveNewProtocol`
(`server.js:1294`): first dictionary entry one of whose aliases is a
(case-insensitive) substring of the normalized phrase wins; the early
`return` inside the nested `for` loops is the first hit. -/
def aliasScanStr (lower : String) : AliasTable → Option String
  | [] => none
  | (canonical, aliases) :: rest =>
    if aliases.any (fun a => jsIncludes lower (jsToLower a)) then some canonical
    else aliasScanStr lower rest

/-- The master-list scan (`server.js:1247` and `server.js:1310`): first
master item that occurs (case-insensitively) inside the phrase. -/
def exactScan (lower : String) : List String → Option String
  | [] => none
  | item :: rest =>
    if jsIncludes lower (jsToLower item) then some item else exactScan lower rest

/-- One step of the best-similarity fold (`if (similarity > bestSimilarity)`
with strict `>`): keep the earlier item on ties. -/
def fuzzyStep (lower : String) (acc : Option String × ℚ) (item : String) :
    Option String × ℚ :=
  let s := calculateSimilarity lower (jsToLower item)
  if acc.2 < s then (some item, s) else acc

/-- The fuzzy scan (`server.js:1258` and `server.js:1322`): best Dice
similarity over the master list, starting from `bestMatch = null`,
`bestSimilarity = 0`. -/
def fuzzyBest (lower : String) (ml : List String) : Option String × ℚ :=
  ml.foldl (fuzzyStep lower) (none, 0)

/-- `server.js:1228` `resolveCurrentProtocol`: alias, then exact, then
fuzzy with a `0.70` acceptance floor.  The source tests only
`bestSimilarity >= 0.70` without a null check on `bestMatch`; since the
similarity starts at `0` and only rises together with `bestMatch`, the
`getD` default is unreachable when the threshold passes. -/
def resolveCurrentProtocol (transcript : String) (ml : List String)
    (d : AliasTable) : CurResult :=
  let lower := jsTrim (jsToLower transcript)
  match aliasScanStr lower d with
  | some c => ⟨c, mkRat 95 100, "alias"⟩
  | none =>
    match exactScan lower ml with
    | some item => ⟨item, mkRat 90 100, "exact"⟩
    | none =>
      match fuzzyBest lower ml with
      | (bm, s) =>
        if mkRat 70 100 ≤ s then ⟨bm.getD "UNMAPPED", s, "fuzzy"⟩
        else ⟨"UNMAPPED", 0, "none"⟩

/-- One transcript variant of `resolveNewProtocol` (`server.js:1290`,
the body of the `allTranscripts.map`): alias, then exact, then fuzzy with
the `bestMatch && bestSimilarity >= 0.60` guard. -/
def resolveVariant (trans : String) (ml : List String) (d : AliasTable) :
    VarResult :=
  let lower := jsTrim (jsToLower trans)
  match aliasScanStr lower d with
  | some c => ⟨c, mkRat 95 100, "alias"⟩
  | none =>
    match exactScan lower ml with
    | some item => ⟨item, mkRat 90 100, "exact"⟩
    | none =>
      match fuzzyBest lower ml with
      | (some m, s) =>
        if mkRat 60 100 ≤ s then ⟨m, s, "fuzzy"⟩ else ⟨"UNMAPPED", 0, "none"⟩
      | (none, _) => ⟨"UNMAPPED", 0, "none"⟩

/-- The `topChoices` JavaScript `Set`, rebuilt from the variant results:
every variant that matched (`source ≠ "none"`) added exactly its
`canonicalItem` at the moment it matched, so the set's insertion order is
the variant order with first-occurrence deduplication. -/
def collectStep (acc : List String) (r : VarResult) : List String :=
  if r.source = "none" then acc
  else if r.canonicalItem ∈ acc then acc else acc ++ [r.canonicalItem]

def collectTopChoices (results : List VarResult) : List String :=
  results.foldl collectStep []

/-- `Array.from(set).slice(0, 3)` padded with `"UNMAPPED"` by the
`while (length < 3)` loop of `server.js:1355`. -/
def padUnmapped (l : List String) : List String :=
  let t := l.take 3
  t ++ List.replicate (3 - t.length) "UNMAPPED"

/-- One step of selecting `results.sort((a, b) => b.confidence - a.confidence)[0]`. -/
def pickStep (acc x : VarResult) : VarResult :=
  if acc.confidence < x.confidence then x else acc

/-- `server.js:1285` `resolveNewProtocol`.  The source stably sorts the
per-variant results by descending confidence (ECMAScript `Array.sort` is
stable) and takes element `[0]`; that element is the first result of
maximal confidence, which is what the `pickStep` fold computes.  The
empty-`results` arm is unreachable: `allTranscripts` always contains the
primary transcript. -/
def resolveNewProtocol (transcript : String) (alternatives ml : List String)
    (d : AliasTable) : NewResult :=
  let results := (transcript :: alternatives).map fun tr => resolveVariant tr ml d
  let best : VarResult :=
    match results with
    | [] => ⟨"UNMAPPED", 0, "none"⟩
    | r :: rest => rest.foldl pickStep r
  ⟨best.canonicalItem, best.confidence, best.source,
    padUnmapped (collectTopChoices results)⟩

/-- The `resolution` sub-record of each protocol's return value inside
`compareProtocols` (`server.js:1432`, `server.js:1468`). -/
structure Resolution where
  canonicalItem : String
  operation : String
  value : Option Nat
  confidence : ℚ
  needsConfirmation : Bool
  topChoices : List String

/-- The `alias` sub-record (`server.js:1444`, `server.js:1476`); the
source field name `alias` is a Lean keyword, so it is rendered
`aliasRec` here. -/
structure AliasAdvice where
  shouldAutoSave : Bool
  aliasToSave : Option String

/-- One protocol's return value.  The `recording` and `inputUsed`
sub-records of the source are pure pass-through telemetry of the raw
audio metadata and are not resolution outputs; they are omitted. -/
structure ProtocolReturn where
  resolution : Resolution
  aliasRec : AliasAdvice

/-- The value of `compareProtocols` (`server.js:1501`); the
`comparisonFlags` logging record is derived from the two returns and
carries no independent behaviour, so it is omitted. -/
structure CompareResult where
  currentInstalled : ProtocolReturn
  newGoogleStt : ProtocolReturn

/-- `server.js:1415` `compareProtocols`.  Decision states of the spec map
onto these fields as the source's own `comparisonFlags` do:
`needsConfirmation = true` plays NEEDS_CONFIRMATION,
`canonicalItem = "UNMAPPED"` plays UNMAPPED, and
`needsConfirmation = false` with a mapped item plays AUTO_COMMIT
(`currentWouldSilentlyCommit` at `server.js:1488`). -/
def compareProtocols (transcript : String) (alternatives ml : List String)
    (d : AliasTable) : CompareResult :=
  let currentResult := resolveCurrentProtocol transcript ml d
  let currentOperation := parseOperation transcript
  let currentValue :=
    if currentOperation = "ERASE" then some 0 else extractNumber transcript
  let returnCurrentInstalled : ProtocolReturn :=
    { resolution :=
        { canonicalItem := currentResult.canonicalItem
          operation := currentOperation
          value := currentValue
          confidence := currentResult.confidence
          needsConfirmation := decide (currentResult.confidence < mkRat 85 100)
          topChoices :=
            [if currentResult.canonicalItem ≠ "UNMAPPED" then
                currentResult.canonicalItem
              else "UNMAPPED",
             "UNMAPPED", "UNMAPPED"] }
      aliasRec := { shouldAutoSave := false, aliasToSave := none } }
  let newResult := resolveNewProtocol transcript alternatives ml d
  let newOperation := parseOperation transcript
  let newValue :=
    if newOperation = "ERASE" then some 0 else extractNumber transcript
  let returnNewGoogleStt : ProtocolReturn :=
    { resolution :=
        { canonicalItem := newResult.canonicalItem
          operation := newOperation
          value := newValue
          confidence := newResult.confidence
          needsConfirmation := decide (newResult.confidence < mkRat 85 100)
          topChoices := newResult.topChoices }
      aliasRec :=
        { shouldAutoSave :=
            decide (mkRat 85 100 ≤ newResult.confidence) &&
              decide (newResult.canonicalItem ≠ "UNMAPPED")
          aliasToSave :=
            if mkRat 85 100 ≤ newResult.confidence ∧ newResult.canonicalItem ≠ "UNMAPPED"
            then some (jsTrim (jsToLower transcript)) else none } }
  ⟨returnCurrentInstalled, returnNewGoogleStt⟩

/-- The JSON body the LLM-backed `/live-count/parse-command` endpoint
parses out of the model's reply (`server.js:1090`), after the shape of
the strict output schema. -/
structure ParsedDecision where
  canonicalItem : String
  operation : Option String
  value : Option Nat
  decisionState : String
  topChoices : List String
  aliasToSave : Option String

/-- The deterministic response assembly of `/live-count/parse-command`
(`server.js:1099`–`1173`), one constructor per `res.json` site. -/
inductive ParseResponse
  | invalidFormat
  | unmappedResp (topChoices : List String)
  | needsConf (item : String) (operation : Option String) (quantity : Option Nat)
      (topChoices : List String) (aliasToSave : Option String)
  | invalidItem
  | autoCommit (item : String) (operation : Option String) (quantity : Option Nat)
      (topChoices : List String) (aliasToSave : Option String)
  | unknownState

/-- `server.js:1099`–`1173`: validation and branching on the parsed
decision.  Note `server.js:1132` falls back to the unvalidated
`parsed.canonicalItem` when no master item matches, and `server.js:1136`
hard-codes `aliasToSave: null` for NEEDS_CONFIRMATION. -/
def parseCommandRespond (parsed : ParsedDecision) (masterList : List String) :
    ParseResponse :=
  if parsed.topChoices.length ≠ 3 then .invalidFormat
  else if parsed.canonicalItem = "UNMAPPED" ∨ parsed.decisionState = "UNMAPPED" then
    .unmappedResp parsed.topChoices
  else if parsed.decisionState = "NEEDS_CONFIRMATION" then
    let matchedItem := masterList.find? fun item =>
      jsTrim (jsToLower item) = jsTrim (jsToLower parsed.canonicalItem)
    .needsConf (matchedItem.getD parsed.canonicalItem) parsed.operation
      parsed.value parsed.topChoices none
  else if parsed.decisionState = "AUTO_COMMIT" then
    let matchedItem := masterList.find? fun item =>
      jsTrim (jsToLower item) = jsTrim (jsToLower parsed.canonicalItem)
    match matchedItem with
    | none => .invalidItem
    | some m =>
      .autoCommit m parsed.operation parsed.value parsed.topChoices
        parsed.aliasToSave
  else .unknownState

/-- The `masterList` field of the request body as JSON delivers it:
absent (or otherwise falsy), present but not an array, or an array of
item strings. -/
inductive MasterListField
  | missing
  | nonArray
  | arr (items : List String)

/-- The request validation of `/live-count/parse-command`
(`server.js:899`–`905`): `some msg` is a 400 rejection with that error
message, `none` means the request proceeds to resolution.  JavaScript
`!transcript` rejects a missing or empty transcript;
`!masterList || !Array.isArray(masterList)` rejects a falsy or non-array
master list — an empty array is truthy and an array, so it passes. -/
def validateParseCommand (transcript : Option String)
    (masterList : MasterListField) : Option String :=
  if transcript = none ∨ transcript = some "" then some "Transcript required"
  else
    match masterList with
    | .missing => some "Master list required"
    | .nonArray => some "Master list required"
    | .arr _ => none

/-- `src/unnamed/part_002:92`–`99`, the count mutation of
`/daily-count/process`: `cur = none` models a key absent from
`project.counts`, and `(project.counts[target] || 0)` yields `0` both
then and for a stored `0`.  The source's three sequential `if`s test the
pairwise-distinct operation strings, so at most one fires; any other
operation leaves the count unchanged. -/
def applyDailyCountOp (op : String) (qty : Int) (cur : Option Int) : Int :=
  if op = "ADD" then cur.getD 0 + qty
  else if op = "SUBTRACT" then cur.getD 0 - qty
  else if op = "SET" then qty
  else cur.getD 0

/-- A JSON value sitting inside an alias list: either a string or
anything else (number, object, …), which has no `toLowerCase` method. -/
inductive JsItem
  | str (s : String)
  | nonString

/-- A JSON value stored under an alias-dictionary key: an array of
elements, or any non-array value (string, number, `null`, …). -/
inductive JsVal
  | arr (elems : List JsItem)
  | nonArr

/-- The `TypeError` JavaScript raises when `alias.toLowerCase()` is
called on a non-string. -/
inductive JsError
  | typeError

/-- Is an `Except` value a normal completion? -/
def isOkB : Except JsError α → Bool
  | .ok _ => true
  | .error _ => false

/-- The inner `for (const alias of aliases)` loop over a dynamically
typed alias list (`server.js:1234` / `server.js:1296`): each element is
sent to `.toLowerCase()` in order, so the first non-string element
reached raises a `TypeError`; a string element that matches stops the
scan with a hit. -/
def scanElems (lower : String) : List JsItem → Except JsError Bool
  | [] => .ok false
  | .str a :: rest =>
    if jsIncludes lower (jsToLower a) then .ok true else scanElems lower rest
  | .nonString :: _ => .error .typeError

/-- The outer `for … of Object.entries(aliasDictionary)` loop under the
`if (aliases && Array.isArray(aliases))` guard (`server.js:1232` /
`server.js:1294`): non-array values are skipped as non-matching; an
array is scanned element by element. -/
def aliasScanJs (lower : String) : List (String × JsVal) → Except JsError (Option String)
  | [] => .ok none
  | (_, .nonArr) :: rest => aliasScanJs lower rest
  | (canonical, .arr elems) :: rest =>
    match scanElems lower elems with
    | .error e => .error e
    | .ok true => .ok (some canonical)
    | .ok false => aliasScanJs lower rest

/-- `resolveCurrentProtocol` over the dynamically typed alias dictionary:
the same function as `resolveCurrentProtocol`, with the alias scan's
possible `TypeError` propagated as the thrown exception. -/
def resolveCurrentProtocolJs (transcript : String) (ml : List String)
    (d : List (String × JsVal)) : Except JsError CurResult :=
  let lower := jsTrim (jsToLower transcript)
  match aliasScanJs lower d with
  | .error e => .error e
  | .ok (some c) => .ok ⟨c, mkRat 95 100, "alias"⟩
  | .ok none =>
    match exactScan lower ml with
    | some item => .ok ⟨item, mkRat 90 100, "exact"⟩
    | none =>
      match fuzzyBest lower ml with
      | (bm, s) =>
        if mkRat 70 100 ≤ s then .ok ⟨bm.getD "UNMAPPED", s, "fuzzy"⟩
        else .ok ⟨"UNMAPPED", 0, "none"⟩

/-- One variant of `resolveNewProtocol` over the dynamically typed alias
dictionary (`server.js:1290`). -/
def resolveVariantJs (trans : String) (ml : List String)
    (d : List (String × JsVal)) : Except JsError VarResult :=
  let lower := jsTrim (jsToLower trans)
  match aliasScanJs lower d with
  | .error e => .error e
  | .ok (some c) => .ok ⟨c, mkRat 95 100, "alias"⟩
  | .ok none =>
    match exactScan lower ml with
    | some item => .ok ⟨item, mkRat 90 100, "exact"⟩
    | none =>
      match fuzzyBest lower ml with
      | (some m, s) =>
        if mkRat 60 100 ≤ s then .ok ⟨m, s, "fuzzy"⟩
        else .ok ⟨"UNMAPPED", 0, "none"⟩
      | (none, _) => .ok ⟨"UNMAPPED", 0, "none"⟩

/-- The `allTranscripts.map` of `resolveNewProtocol` with exception
propagation: the first variant whose alias scan throws aborts the map. -/
def mapVariantsJs (ml : List String) (d : List (String × JsVal)) :
    List String → Except JsError (List VarResult)
  | [] => .ok []
  | t :: ts =>
    match resolveVariantJs t ml d with
    | .error e => .error e
    | .ok r =>
      match mapVariantsJs ml d ts with
      | .error e => .error e
      | .ok rs => .ok (r :: rs)

/-- `resolveNewProtocol` over the dynamically typed alias dictionary. -/
def resolveNewProtocolJs (transcript : String) (alternatives ml : List String)
    (d : List (String × JsVal)) : Except JsError NewResult :=
  match mapVariantsJs ml d (transcript :: alternatives) with
  | .error e => .error e
  | .ok results =>
    let best : VarResult :=
      match results with
      | [] => ⟨"UNMAPPED", 0, "none"⟩
      | r :: rest => rest.foldl pickStep r
    .ok ⟨best.canonicalItem, best.confidence, best.source,
      padUnmapped (collectTopChoices results)⟩

/-- Is this alias-list element a string? -/
def JsItem.isStr : JsItem → Bool
  | .str _ => true
  | .nonString => false

/-- Is every element of this alias value's list a string?  (Non-array
values have no elements and are vacuously well-formed: the source skips
them.) -/
def JsVal.elemsAllStrings : JsVal → Bool
  | .arr elems => elems.all fun x => x.isStr
  | .nonArr => true

/-! ### Helper lemmas -/

lemma foldl_pickStep_mem (l : List VarResult) (acc : VarResult) :
    l.foldl pickStep acc = acc ∨ l.foldl pickStep acc ∈ l := by
  induction l generalizing acc with
  | nil => exact Or.inl rfl
  | cons x xs ih =>
    simp only [List.foldl_cons]
    rcases ih (pickStep acc x) with h | h
    · rw [h]
      unfold pickStep
      split
      · exact Or.inr (List.mem_cons_self _ _)
      · exact Or.inl rfl
    · exact Or.inr (List.mem_cons_of_mem _ h)

lemma foldl_pickStep_acc_le (l : List VarResult) (acc : VarResult) :
    acc.confidence ≤ (l.foldl pickStep acc).confidence := by
  induction l generalizing acc with
  | nil => exact le_refl _
  | cons x xs ih =>
    simp only [List.foldl_cons]
    refine le_trans ?_ (ih (pickStep acc x))
    unfold pickStep
    split
    · next h => exact le_of_lt h
    · exact le_refl _

lemma aliasScanStr_mem (lower c : String) (d : AliasTable)
    (h : aliasScanStr lower d = some c) : ∃ p ∈ d, p.1 = c := by
  induction d with
  | nil => simp [aliasScanStr] at h
  | cons p rest ih =>
    obtain ⟨canonical, aliases⟩ := p
    rw [aliasScanStr] at h
    split at h
    · injection h with h
      exact ⟨(canonical, aliases), List.mem_cons_self _ _, h⟩
    · obtain ⟨q, hq, hq1⟩ := ih h
      exact ⟨q, List.mem_cons_of_mem _ hq, hq1⟩

lemma exactScan_mem (lower i : String) (ml : List String)
    (h : exactScan lower ml = some i) : i ∈ ml := by
  induction ml with
  | nil => simp [exactScan] at h
  | cons item rest ih =>
    rw [exactScan] at h
    split at h
    · injection h with h
      exact h ▸ List.mem_cons_self _ _
    · exact List.mem_cons_of_mem _ (ih h)

lemma foldl_fuzzyStep_fst (lower m : String) (l : List String)
    (acc : Option String × ℚ) (h : (l.foldl (fuzzyStep lower) acc).1 = some m) :
    acc.1 = some m ∨ m ∈ l := by
  induction l generalizing acc with
  | nil => exact Or.inl h
  | cons x xs ih =>
    simp only [List.foldl_cons] at h
    rcases ih (fuzzyStep lower acc x) h with h2 | h2
    · simp only [fuzzyStep] at h2
      split at h2
      · injection h2 with h2
        exact Or.inr (h2 ▸ List.mem_cons_self _ _)
      · exact Or.inl h2
    · exact Or.inr (List.mem_cons_of_mem _ h2)

lemma fuzzyBest_mem (lower m : String) (ml : List String)
    (h : (fuzzyBest lower ml).1 = some m) : m ∈ ml := by
  rcases foldl_fuzzyStep_fst lower m ml (none, 0) h with h2 | h2
  · simp at h2
  · exact h2

lemma resolveVariant_cases (t : String) (ml : List String) (d : AliasTable) :
    (∃ p ∈ d, p.1 = (resolveVariant t ml d).canonicalItem) ∨
    (resolveVariant t ml d).canonicalItem ∈ ml ∨
    (resolveVariant t ml d).canonicalItem = "UNMAPPED" := by
  simp only [resolveVariant]
  split
  · next c hc => exact Or.inl (aliasScanStr_mem _ _ _ hc)
  · next hc =>
    split
    · next i hi => exact Or.inr (Or.inl (exactScan_mem _ _ _ hi))
    · next hi =>
      split
      · next m s hm =>
        split
        · refine Or.inr (Or.inl ?_)
          have : (fuzzyBest (jsTrim (jsToLower t)) ml).1 = some m := by rw [hm]
          exact fuzzyBest_mem _ _ _ this
        · exact Or.inr (Or.inr rfl)
      · next hm => exact Or.inr (Or.inr rfl)

lemma variant_item_mem (tr : String) (ml : List String) (d : AliasTable)
    (hk : ∀ p ∈ d, p.1 ∈ ml) :
    (resolveVariant tr ml d).canonicalItem ∈ ml ∨
    (resolveVariant tr ml d).canonicalItem = "UNMAPPED" := by
  rcases resolveVariant_cases tr ml d with ⟨p, hp, hp1⟩ | h | h
  · exact Or.inl (hp1 ▸ hk p hp)
  · exact Or.inl h
  · exact Or.inr h

lemma mem_collectStep (acc : List String) (r : VarResult) (x : String)
    (h : x ∈ collectStep acc r) : x ∈ acc ∨ x = r.canonicalItem := by
  unfold collectStep at h
  split at h
  · exact Or.inl h
  · split at h
    · exact Or.inl h
    · rcases List.mem_append.mp h with h2 | h2
      · exact Or.inl h2
      · exact Or.inr (List.mem_singleton.mp h2)

lemma mem_foldl_collectStep (rs : List VarResult) (acc : List String) (x : String)
    (h : x ∈ rs.foldl collectStep acc) :
    x ∈ acc ∨ ∃ r ∈ rs, x = r.canonicalItem := by
  induction rs generalizing acc with
  | nil => exact Or.inl h
  | cons r rest ih =>
    simp only [List.foldl_cons] at h
    rcases ih (collectStep acc r) h with h2 | ⟨q, hq, hq1⟩
    · rcases mem_collectStep acc r x h2 with h3 | h3
      · exact Or.inl h3
      · exact Or.inr ⟨r, List.mem_cons_self _ _, h3⟩
    · exact Or.inr ⟨q, List.mem_cons_of_mem _ hq, hq1⟩

lemma mem_collectTopChoices (rs : List VarResult) (x : String)
    (h : x ∈ collectTopChoices rs) : ∃ r ∈ rs, x = r.canonicalItem := by
  rcases mem_foldl_collectStep rs [] x h with h2 | h2
  · simp at h2
  · exact h2

lemma padUnmapped_length (l : List String) : (padUnmapped l).length = 3 := by
  unfold padUnmapped
  simp only [List.length_append, List.length_take, List.length_replicate]
  omega

lemma mem_padUnmapped (l : List String) (x : String) (h : x ∈ padUnmapped l) :
    x ∈ l ∨ x = "UNMAPPED" := by
  unfold padUnmapped at h
  rcases List.mem_append.mp h with h2 | h2
  · exact Or.inl (List.take_subset _ _ h2)
  · exact Or.inr (List.eq_of_mem_replicate h2)

lemma resolveNewProtocol_eq (t : String) (alts ml : List String) (d : AliasTable) :
    resolveNewProtocol t alts ml d =
      ⟨((alts.map fun tr => resolveVariant tr ml d).foldl pickStep
          (resolveVariant t ml d)).canonicalItem,
       ((alts.map fun tr => resolveVariant tr ml d).foldl pickStep
          (resolveVariant t ml d)).confidence,
       ((alts.map fun tr => resolveVariant tr ml d).foldl pickStep
          (resolveVariant t ml d)).source,
       padUnmapped (collectTopChoices
          (resolveVariant t ml d :: alts.map fun tr => resolveVariant tr ml d))⟩ := rfl

lemma compareProtocols_new_eq (t : String) (alts ml : List String) (d : AliasTable) :
    (compareProtocols t alts ml d).newGoogleStt =
      { resolution :=
          { canonicalItem := (resolveNewProtocol t alts ml d).canonicalItem
            operation := parseOperation t
            value := if parseOperation t = "ERASE" then some 0 else extractNumber t
            confidence := (resolveNewProtocol t alts ml d).confidence
            needsConfirmation :=
              decide ((resolveNewProtocol t alts ml d).confidence < mkRat 85 100)
            topChoices := (resolveNewProtocol t alts ml d).topChoices }
        aliasRec :=
          { shouldAutoSave :=
              decide (mkRat 85 100 ≤ (resolveNewProtocol t alts ml d).confidence) &&
                decide ((resolveNewProtocol t alts ml d).canonicalItem ≠ "UNMAPPED")
            aliasToSave :=
              if mkRat 85 100 ≤ (resolveNewProtocol t alts ml d).confidence ∧
                  (resolveNewProtocol t alts ml d).canonicalItem ≠ "UNMAPPED"
              then some (jsTrim (jsToLower t)) else none } } := rfl

/-! ### Claim theorems -/

/-- C1 (amended): for every resolution request whose alias table only
maps keys that are themselves canonical items, the canonical item in the
decision of `resolveNewProtocol` is a member of the caller-supplied
canonical set or the sentinel `"UNMAPPED"`.  (Without that hygiene
hypothesis the engine can output a bare alias-table key; see the
counterexample.) -/
theorem resolveNewProtocol_no_hallucination (t : String) (alts ml : List String)
    (d : AliasTable) (hk : ∀ p ∈ d, p.1 ∈ ml) :
    (resolveNewProtocol t alts ml d).canonicalItem ∈ ml ∨
    (resolveNewProtocol t alts ml d).canonicalItem = "UNMAPPED" := by
  rw [resolveNewProtocol_eq]
  rcases foldl_pickStep_mem (alts.map fun tr => resolveVariant tr ml d)
      (resolveVariant t ml d) with h | h
  · rw [h]
    exact variant_item_mem t ml d hk
  · obtain ⟨tr, _, heq⟩ := List.mem_map.mp h
    rw [← heq]
    exact variant_item_mem tr ml d hk

theorem resolveNewProtocol_no_hallucination_witness :
    (∀ p ∈ ([("RIBS", ["rib"])] : AliasTable), p.1 ∈ ["RIBS"]) ∧
    ((resolveNewProtocol "rib" [] ["RIBS"] [("RIBS", ["rib"])]).canonicalItem ∈ ["RIBS"] ∨
     (resolveNewProtocol "rib" [] ["RIBS"] [("RIBS", ["rib"])]).canonicalItem = "UNMAPPED") :=
  ⟨by decide, resolveNewProtocol_no_hallucination "rib" [] ["RIBS"] [("RIBS", ["rib"])] (by decide)⟩

/-- C1 counterexample: with the alias table `{GHOST: ["foo"]}` whose key
`"GHOST"` is not in the canonical set `["RIBS"]`, the engine outputs
`"GHOST"`, an item name outside `canonicalItems ∪ {UNMAPPED}`. -/
theorem resolveNewProtocol_alias_key_escapes :
    (resolveNewProtocol "foo" [] ["RIBS"] [("GHOST", ["foo"])]).canonicalItem = "GHOST" ∧
    "GHOST" ∉ (["RIBS"] : List String) ∧ ("GHOST" : String) ≠ "UNMAPPED" := by
  refine ⟨by decide, by decide, by decide⟩

/-- C2: for every request, whenever the new-protocol decision is not an
auto-commit (it needs confirmation or is unmapped), its `aliasToSave` is
`none`; the current protocol never recommends an alias at all; and the
`/live-count/parse-command` endpoint's NEEDS_CONFIRMATION response always
carries `aliasToSave = none`. -/
theorem compareProtocols_confirm_means_no_alias (t : String) (alts ml : List String)
    (d : AliasTable)
    (h : (compareProtocols t alts ml d).newGoogleStt.resolution.needsConfirmation = true ∨
         (compareProtocols t alts ml d).newGoogleStt.resolution.canonicalItem = "UNMAPPED") :
    (compareProtocols t alts ml d).newGoogleStt.aliasRec.aliasToSave = none ∧
    (compareProtocols t alts ml d).currentInstalled.aliasRec.aliasToSave = none ∧
    ∀ (p : ParsedDecision) (i : String) (op : Option String) (q : Option Nat)
      (tc : List String) (a : Option String),
      parseCommandRespond p ml = ParseResponse.needsConf i op q tc a → a = none := by
  refine ⟨?_, rfl, ?_⟩
  · rw [compareProtocols_new_eq] at h ⊢
    show (if mkRat 85 100 ≤ (resolveNewProtocol t alts ml d).confidence ∧
            (resolveNewProtocol t alts ml d).canonicalItem ≠ "UNMAPPED"
          then some (jsTrim (jsToLower t)) else none) = none
    rw [if_neg]
    rintro ⟨hle, hne⟩
    rcases h with h | h
    · exact absurd (of_decide_eq_true h) (not_lt.mpr hle)
    · exact hne h
  · intro p i op q tc a ha
    unfold parseCommandRespond at ha
    split at ha
    · cases ha
    · split at ha
      · cases ha
      · split at ha
        · cases ha
          rfl
        · split at ha
          · dsimp only at ha
            split at ha
            · cases ha
            · cases ha
          · cases ha

theorem compareProtocols_confirm_means_no_alias_witness :
    ((compareProtocols "xyz" [] ["CHICKEN"] []).newGoogleStt.resolution.needsConfirmation = true ∨
     (compareProtocols "xyz" [] ["CHICKEN"] []).newGoogleStt.resolution.canonicalItem = "UNMAPPED") ∧
    ((compareProtocols "xyz" [] ["CHICKEN"] []).newGoogleStt.aliasRec.aliasToSave = none ∧
     (compareProtocols "xyz" [] ["CHICKEN"] []).currentInstalled.aliasRec.aliasToSave = none ∧
     ∀ (p : ParsedDecision) (i : String) (op : Option String) (q : Option Nat)
       (tc : List String) (a : Option String),
       parseCommandRespond p ["CHICKEN"] = ParseResponse.needsConf i op q tc a → a = none) :=
  ⟨Or.inr (by decide),
   compareProtocols_confirm_means_no_alias "xyz" [] ["CHICKEN"] [] (Or.inr (by decide))⟩

/-- C3 (amended): the new protocol's decision state does not depend on
how many distinct candidates were collected — `needsConfirmation` is
purely the best-confidence threshold test. Whenever the primary
transcript itself resolves at the alias or exact tier (confidence `0.95`
or `0.90`), the decision is an auto-commit (`needsConfirmation = false`)
no matter how many further distinct candidates the alternatives
contribute. -/
theorem compareProtocols_primary_exact_commits (t : String) (alts ml : List String)
    (d : AliasTable) (i : String)
    (h1 : aliasScanStr (jsTrim (jsToLower t)) d = none)
    (h2 : exactScan (jsTrim (jsToLower t)) ml = some i) :
    (compareProtocols t alts ml d).newGoogleStt.resolution.needsConfirmation = false := by
  have hv : resolveVariant t ml d = ⟨i, mkRat 90 100, "exact"⟩ := by
    simp only [resolveVariant, h1, h2]
  have hle : mkRat 90 100 ≤ (resolveNewProtocol t alts ml d).confidence := by
    rw [resolveNewProtocol_eq]
    dsimp only
    rw [hv]
    simpa using foldl_pickStep_acc_le (alts.map fun tr => resolveVariant tr ml d)
      ⟨i, mkRat 90 100, "exact"⟩
  rw [compareProtocols_new_eq]
  show decide ((resolveNewProtocol t alts ml d).confidence < mkRat 85 100) = false
  exact decide_eq_false (not_lt.mpr (le_trans (by decide) hle))

theorem compareProtocols_primary_exact_commits_witness :
    aliasScanStr (jsTrim (jsToLower "ribs")) [] = none ∧
    exactScan (jsTrim (jsToLower "ribs")) ["RIBS", "CRABS"] = some "RIBS" ∧
    (compareProtocols "ribs" ["crabs"] ["RIBS", "CRABS"] []).newGoogleStt.resolution.needsConfirmation = false :=
  ⟨by decide, by decide,
   compareProtocols_primary_exact_commits "ribs" ["crabs"] ["RIBS", "CRABS"] [] "RIBS"
     (by decide) (by decide)⟩

/-- C3 counterexample: transcript `"ribs"` with alternative `"crabs"`
against `["RIBS", "CRABS"]` collects two distinct canonical candidates
(both at the exact tier, visible in `topChoices`), yet the decision is
`needsConfirmation = false` — an auto-commit, not NEEDS_CONFIRMATION. -/
theorem compareProtocols_two_candidates_still_commit :
    (compareProtocols "ribs" ["crabs"] ["RIBS", "CRABS"] []).newGoogleStt.resolution.topChoices
      = ["RIBS", "CRABS", "UNMAPPED"] ∧
    ("RIBS" : String) ≠ "CRABS" ∧
    "RIBS" ∈ (["RIBS", "CRABS"] : List String) ∧
    "CRABS" ∈ (["RIBS", "CRABS"] : List String) ∧
    (compareProtocols "ribs" ["crabs"] ["RIBS", "CRABS"] []).newGoogleStt.resolution.needsConfirmation
      = false := by
  refine ⟨by decide, by decide, by decide, by decide, by decide⟩

/-- C4 (amended): the comparator never escalates on an unmatched verb or
a missing value — `needsConfirmation` equals the pure confidence test
`confidence < 0.85` for every request, and in particular the transcript
`"chicken"` against `["CHICKEN"]` (no verb matched, so the classifier
fell through to the default `"SET"`, and no number was found, so
`value = none`) still yields `needsConfirmation = false`, i.e. an
auto-commit rather than NEEDS_CONFIRMATION. -/
theorem compareProtocols_needsConfirmation_ignores_verb_and_value :
    (∀ (t : String) (alts ml : List String) (d : AliasTable),
      (compareProtocols t alts ml d).newGoogleStt.resolution.needsConfirmation =
        decide ((compareProtocols t alts ml d).newGoogleStt.resolution.confidence < mkRat 85 100)) ∧
    (compareProtocols "chicken" [] ["CHICKEN"] []).newGoogleStt.resolution.canonicalItem = "CHICKEN" ∧
    (compareProtocols "chicken" [] ["CHICKEN"] []).newGoogleStt.resolution.operation = "SET" ∧
    (compareProtocols "chicken" [] ["CHICKEN"] []).newGoogleStt.resolution.value = none ∧
    (compareProtocols "chicken" [] ["CHICKEN"] []).newGoogleStt.resolution.needsConfirmation = false :=
  ⟨fun _ _ _ _ => rfl, by decide, by decide, by decide, by decide⟩

/-- C4 counterexample: `"chicken"` against `["CHICKEN"]` — classifier
fell through to its default and no number was extracted, yet the
decision is not NEEDS_CONFIRMATION. -/
theorem compareProtocols_chicken_not_confirmed :
    (compareProtocols "chicken" [] ["CHICKEN"] []).newGoogleStt.resolution.needsConfirmation = false ∧
    parseOperation "chicken" = "SET" ∧
    extractNumber "chicken" = none := by
  refine ⟨by decide, by decide, by decide⟩

/-- C5 (amended): the new protocol's `aliasToSave` is non-null exactly
when the decision is an auto-commit onto a mapped item
(`needsConfirmation = false` and `canonicalItem ≠ "UNMAPPED"`): the
comparator consults no auto-save permission flag (it has no such
parameter), and performs no self-alias or duplicate-alias check. -/
theorem compareProtocols_aliasSave_iff (t : String) (alts ml : List String)
    (d : AliasTable) :
    (compareProtocols t alts ml d).newGoogleStt.aliasRec.aliasToSave ≠ none ↔
      ((compareProtocols t alts ml d).newGoogleStt.resolution.needsConfirmation = false ∧
       (compareProtocols t alts ml d).newGoogleStt.resolution.canonicalItem ≠ "UNMAPPED") := by
  rw [compareProtocols_new_eq]
  show (if mkRat 85 100 ≤ (resolveNewProtocol t alts ml d).confidence ∧
          (resolveNewProtocol t alts ml d).canonicalItem ≠ "UNMAPPED"
        then some (jsTrim (jsToLower t)) else none) ≠ none ↔
      (decide ((resolveNewProtocol t alts ml d).confidence < mkRat 85 100) = false ∧
       (resolveNewProtocol t alts ml d).canonicalItem ≠ "UNMAPPED")
  by_cases hc : mkRat 85 100 ≤ (resolveNewProtocol t alts ml d).confidence ∧
      (resolveNewProtocol t alts ml d).canonicalItem ≠ "UNMAPPED"
  · rw [if_pos hc]
    simp only [ne_eq, reduceCtorEq, not_false_eq_true, true_iff]
    exact ⟨decide_eq_false (not_lt.mpr hc.1), hc.2⟩
  · rw [if_neg hc]
    simp only [ne_eq, not_true_eq_false, false_iff, not_and]
    intro hnc hne
    apply hc
    refine ⟨?_, hne⟩
    by_contra hlt
    rw [decide_eq_true (not_le.mp hlt)] at hnc
    cases hnc

/-- C5 counterexample: resubmitting the utterance `"shrimp"` when the
alias `"shrimp"` is already stored for `"SHRIMP SKEWER"` in the alias
table still produces `aliasToSave = some "shrimp"` (a duplicate
recommendation), with no auto-save permission ever consulted. -/
theorem compareProtocols_duplicate_alias_still_saved :
    (compareProtocols "shrimp" [] ["SHRIMP SKEWER"] [("SHRIMP SKEWER", ["shrimp"])]).newGoogleStt.aliasRec.aliasToSave
      = some "shrimp" ∧
    "shrimp" ∈ (["shrimp"] : List String) := by
  refine ⟨by decide, by decide⟩

/-- C6 (amended): for every request whose alias table only maps keys in
the canonical set, `topChoices` has length exactly 3 and every entry is
a canonical item or `"UNMAPPED"`.  The length holds unconditionally; the
membership needs the hygiene hypothesis (see the counterexample). -/
theorem resolveNewProtocol_topChoices_wellformed (t : String) (alts ml : List String)
    (d : AliasTable) (hk : ∀ p ∈ d, p.1 ∈ ml) :
    (resolveNewProtocol t alts ml d).topChoices.length = 3 ∧
    ∀ x ∈ (resolveNewProtocol t alts ml d).topChoices, x ∈ ml ∨ x = "UNMAPPED" := by
  rw [resolveNewProtocol_eq]
  refine ⟨padUnmapped_length _, ?_⟩
  intro x hx
  rcases mem_padUnmapped _ _ hx with hx2 | hx2
  · obtain ⟨r, hr, rfl⟩ := mem_collectTopChoices _ _ hx2
    rcases List.mem_cons.mp hr with rfl | hr2
    · exact variant_item_mem t ml d hk
    · obtain ⟨tr, _, rfl⟩ := List.mem_map.mp hr2
      exact variant_item_mem tr ml d hk
  · exact Or.inr hx2

theorem resolveNewProtocol_topChoices_wellformed_witness :
    (∀ p ∈ ([("CRABS", ["crab"])] : AliasTable), p.1 ∈ ["CRABS"]) ∧
    ((resolveNewProtocol "crab" [] ["CRABS"] [("CRABS", ["crab"])]).topChoices.length = 3 ∧
     ∀ x ∈ (resolveNewProtocol "crab" [] ["CRABS"] [("CRABS", ["crab"])]).topChoices,
       x ∈ ["CRABS"] ∨ x = "UNMAPPED") :=
  ⟨by decide,
   resolveNewProtocol_topChoices_wellformed "crab" [] ["CRABS"] [("CRABS", ["crab"])] (by decide)⟩

/-- C6 counterexample: with alias key `"GHOST"` outside the canonical
set, `topChoices` has length 3 but contains `"GHOST"`, which is neither
a canonical item nor `"UNMAPPED"`. -/
theorem resolveNewProtocol_topChoices_alias_key_leak :
    (resolveNewProtocol "foo" [] ["RIBS"] [("GHOST", ["foo"])]).topChoices
      = ["GHOST", "UNMAPPED", "UNMAPPED"] ∧
    "GHOST" ∉ (["RIBS"] : List String) ∧ ("GHOST" : String) ≠ "UNMAPPED" := by
  refine ⟨by decide, by decide, by decide⟩

/-- C7 (amended): `extractNumber` performs no additive combination — on
an explicit `"X plus Y"` phrase it returns only the first number found
(`5`, not `8`, for `"5 plus 3"`; `five`, not eight, for
`"five plus three"`); the word `"plus"` is instead consumed by the
operation classifier, which maps the phrase to `"ADD"`. -/
theorem extractNumber_first_number_only :
    extractNumber "5 plus 3" = some 5 ∧
    extractNumber "five plus three" = some 5 ∧
    parseOperation "5 plus 3" = "ADD" := by
  refine ⟨by decide, by decide, by decide⟩

/-- C7 counterexample: on `"5 plus 3"` (and its spelled-out form) the
extractor does not return the sum `8`. -/
theorem extractNumber_no_plus_addition :
    extractNumber "5 plus 3" ≠ some 8 ∧
    extractNumber "five plus three" ≠ some 8 := by
  refine ⟨by decide, by decide⟩

/-- C8 (amended): the endpoint's validation rejects only a missing (or
otherwise falsy) or non-array master list; every array — including the
empty array — passes validation, so a request with an empty canonical
set proceeds to resolution instead of failing fast. -/
theorem validateParseCommand_shape_only :
    (∀ l : List String, validateParseCommand (some "add 5 ribs") (.arr l) = none) ∧
    validateParseCommand (some "add 5 ribs") .missing = some "Master list required" ∧
    validateParseCommand (some "add 5 ribs") .nonArray = some "Master list required" :=
  ⟨fun _ => rfl, by decide, by decide⟩

/-- C8 counterexample: a request with the empty canonical-item set is
not rejected — validation lets it proceed. -/
theorem validateParseCommand_empty_master_passes :
    validateParseCommand (some "add 5 shrimp") (.arr []) = none := by
  decide

/-- C9: the `/daily-count/process` count store applies SUBTRACT without
flooring at zero: from a prior count of `2`, subtracting `5` stores
`-3`, not `max 0 (2 - 5) = 0` as the floor-at-zero contract requires. -/
theorem applyDailyCountOp_subtract_goes_negative :
    applyDailyCountOp "SUBTRACT" 5 (some 2) = -3 ∧
    applyDailyCountOp "SUBTRACT" 5 (some 2) ≠ max 0 (2 - 5) := by
  refine ⟨by decide, by decide⟩

lemma scanElems_ok (lower : String) (elems : List JsItem)
    (h : elems.all (fun x => x.isStr) = true) :
    ∃ b, scanElems lower elems = .ok b := by
  induction elems with
  | nil => exact ⟨false, rfl⟩
  | cons x rest ih =>
    simp only [List.all_cons, Bool.and_eq_true] at h
    cases x with
    | str a =>
      by_cases hi : jsIncludes lower (jsToLower a) = true
      · exact ⟨true, by simp [scanElems, hi]⟩
      · obtain ⟨b, hb⟩ := ih h.2
        refine ⟨b, ?_⟩
        rw [scanElems, if_neg]
        · exact hb
        · simpa using hi
    | nonString => cases h.1

lemma aliasScanJs_ok (lower : String) (d : List (String × JsVal))
    (h : ∀ p ∈ d, p.2.elemsAllStrings = true) :
    ∃ o, aliasScanJs lower d = .ok o := by
  induction d with
  | nil => exact ⟨none, rfl⟩
  | cons p rest ih =>
    obtain ⟨canonical, v⟩ := p
    have hrest : ∀ q ∈ rest, q.2.elemsAllStrings = true := fun q hq =>
      h q (List.mem_cons_of_mem _ hq)
    cases v with
    | nonArr =>
      obtain ⟨o, ho⟩ := ih hrest
      exact ⟨o, by rw [aliasScanJs]; exact ho⟩
    | arr elems =>
      have he : elems.all (fun x => x.isStr) = true := by
        simpa [JsVal.elemsAllStrings] using h (canonical, .arr elems) (List.mem_cons_self _ _)
      obtain ⟨b, hb⟩ := scanElems_ok lower elems he
      cases b with
      | true => exact ⟨some canonical, by rw [aliasScanJs, hb]⟩
      | false =>
        obtain ⟨o, ho⟩ := ih hrest
        exact ⟨o, by rw [aliasScanJs, hb]; exact ho⟩

lemma resolveCurrentProtocolJs_ok (t : String) (ml : List String)
    (d : List (String × JsVal)) (h : ∀ p ∈ d, p.2.elemsAllStrings = true) :
    isOkB (resolveCurrentProtocolJs t ml d) = true := by
  obtain ⟨o, ho⟩ := aliasScanJs_ok (jsTrim (jsToLower t)) d h
  simp only [resolveCurrentProtocolJs]
  rw [ho]
  cases o with
  | some c => rfl
  | none =>
    dsimp only
    split
    · rfl
    · split
      · rfl
      · rfl

lemma resolveVariantJs_ok (tr : String) (ml : List String)
    (d : List (String × JsVal)) (h : ∀ p ∈ d, p.2.elemsAllStrings = true) :
    ∃ r, resolveVariantJs tr ml d = .ok r := by
  obtain ⟨o, ho⟩ := aliasScanJs_ok (jsTrim (jsToLower tr)) d h
  simp only [resolveVariantJs]
  rw [ho]
  cases o with
  | some c => exact ⟨_, rfl⟩
  | none =>
    dsimp only
    split
    · exact ⟨_, rfl⟩
    · split
      · split
        · exact ⟨_, rfl⟩
        · exact ⟨_, rfl⟩
      · exact ⟨_, rfl⟩

lemma mapVariantsJs_ok (ml : List String) (d : List (String × JsVal))
    (h : ∀ p ∈ d, p.2.elemsAllStrings = true) (ts : List String) :
    ∃ rs, mapVariantsJs ml d ts = .ok rs := by
  induction ts with
  | nil => exact ⟨[], rfl⟩
  | cons t rest ih =>
    obtain ⟨r, hr⟩ := resolveVariantJs_ok t ml d h
    obtain ⟨rs, hrs⟩ := ih
    exact ⟨r :: rs, by rw [mapVariantsJs, hr, hrs]⟩

/-- C10 (amended): alias resolution tolerates alias-dictionary values
that are not arrays (they are skipped as non-matching), but it is crash-
free only when every element inside each alias array is a string: under
that hypothesis both resolvers complete normally for every transcript
and alternative list.  A non-string element inside an alias list throws
a `TypeError` (see the counterexample). -/
theorem resolveJs_ok_of_wellformed (t : String) (alts ml : List String)
    (d : List (String × JsVal)) (h : ∀ p ∈ d, p.2.elemsAllStrings = true) :
    isOkB (resolveCurrentProtocolJs t ml d) = true ∧
    isOkB (resolveNewProtocolJs t alts ml d) = true := by
  refine ⟨resolveCurrentProtocolJs_ok t ml d h, ?_⟩
  obtain ⟨rs, hrs⟩ := mapVariantsJs_ok ml d h (t :: alts)
  unfold resolveNewProtocolJs
  rw [hrs]
  rfl

theorem resolveJs_ok_of_wellformed_witness :
    (∀ p ∈ ([("RIBS", .arr [.str "reb"]), ("X", .nonArr)] : List (String × JsVal)),
      p.2.elemsAllStrings = true) ∧
    (isOkB (resolveCurrentProtocolJs "hello" ["RIBS"]
        [("RIBS", .arr [.str "reb"]), ("X", .nonArr)]) = true ∧
     isOkB (resolveNewProtocolJs "hello" ["world"] ["RIBS"]
        [("RIBS", .arr [.str "reb"]), ("X", .nonArr)]) = true) :=
  ⟨by decide,
   resolveJs_ok_of_wellformed "hello" ["world"] ["RIBS"]
     [("RIBS", .arr [.str "reb"]), ("X", .nonArr)] (by decide)⟩

/-- C10 counterexample: a non-string element inside the alias list of
`"RIBS"` makes both resolvers throw a `TypeError` instead of completing
normally. -/
theorem resolveJs_crashes_on_nonstring_alias :
    resolveCurrentProtocolJs "ribs" ["RIBS"] [("RIBS", .arr [.nonString])]
      = .error .typeError ∧
    resolveNewProtocolJs "ribs" [] ["RIBS"] [("RIBS", .arr [.nonString])]
      = .error .typeError := by
  refine ⟨rfl, rfl⟩
